import Mathlib

/-!
Shallow embedding of the agreement/consensus core of the
Nutrition Label Dashboard pipeline:

* `src/pipeline/kappa_calculator.py` (class `KappaCalculator`)
* `src/pipeline/model_evaluator.py` (class `ModelEvaluator`)

Modelling conventions:

* pandas DataFrames are lists of record structures; a pandas `pivot` is
  modelled by sorting the records by (postId, annotator) and grouping by
  postId; pandas raises on duplicate (index, column) pairs, modelled as
  `Option.none`.  Missing cells are pandas `NaN`, modelled as `Option.none`
  inside a cell; note that `NaN != -1` holds in pandas, so missing cells
  survive the "remove -1" masks exactly as `none` survives `(· != some (-1))`.
* Python floats are modelled as exact rationals; `round(x, 4)` is modelled
  as rounding `x * 10000` to the nearest integer (ties away from the lower
  value).  Python uses the IEEE double and round-half-even; the two agree
  on every value appearing in the development.
* Python exceptions are modelled structurally: functions that the source
  wraps in `try/except` return `Option` results (`none` = exception caught);
  top-level uncaught errors use `Except String`.
* Post identifiers and annotator names (`Annotator_1`, ...) are modelled as
  naturals; `pivot` sorts both, which matches the string sort of annotator
  names whenever the reviewer count is below ten (the only regime in which
  column order is observable: Cohen and confusion matrices need exactly 2).
-/

namespace NLD

/-! ## Generic list machinery (fuel-based, kernel-reducible) -/

/-- Merge two lists using a boolean "should come no later than" relation.
The fuel bounds recursion depth; `fuel = length xs + length ys` suffices. -/
def mergeBy (le : α → α → Bool) : Nat → List α → List α → List α
  | _, [], ys => ys
  | _, xs, [] => xs
  | 0, xs, ys => xs ++ ys
  | fuel+1, x :: xs, y :: ys =>
    if le x y then x :: mergeBy le fuel xs (y :: ys)
    else y :: mergeBy le fuel (x :: xs) ys

/-- Merge adjacent pairs of runs (one bottom-up merge-sort round). -/
def mergePairsBy (le : α → α → Bool) : List (List α) → List (List α)
  | a :: b :: rest => mergeBy le (a.length + b.length) a b :: mergePairsBy le rest
  | ls => ls

/-- Repeatedly merge runs until one remains. -/
def mergeAllBy (le : α → α → Bool) : Nat → List (List α) → List α
  | _, [] => []
  | _, [l] => l
  | 0, ls => ls.foldr (· ++ ·) []
  | fuel+1, ls => mergeAllBy le fuel (mergePairsBy le ls)

/-- Bottom-up merge sort (total, structural recursion on fuel). -/
def sortListBy (le : α → α → Bool) (l : List α) : List α :=
  mergeAllBy le l.length (l.map fun x => [x])

/-- Remove adjacent duplicates (full dedup on a sorted list). -/
def dedupAdj [BEq α] : List α → List α
  | [] => []
  | [x] => [x]
  | x :: y :: rest =>
    if x == y then dedupAdj (y :: rest) else x :: dedupAdj (y :: rest)

/-- Sorted distinct naturals: models both the sorted index/columns of a
pandas `pivot` and `Series.nunique` (via `List.length`). -/
def sortedUnique (l : List Nat) : List Nat :=
  dedupAdj (sortListBy Nat.ble l)

/-- Distinct values in first-encounter order: models pandas
`Series.unique`. -/
def uniqueFirstAux : Nat → List Nat → List Nat
  | _, [] => []
  | 0, _ => []
  | fuel+1, x :: xs => x :: uniqueFirstAux fuel (xs.filter (fun y => y != x))

/-- Distinct values in first-encounter order (pandas `Series.unique`). -/
def uniqueFirst (l : List Nat) : List Nat := uniqueFirstAux l.length l

/-- Model of Python `round(x, 4)`: round to four decimal digits. -/
def round4 (q : ℚ) : ℚ := ((round (q * 10000) : ℤ) : ℚ) / 10000

/-! ## KappaCalculator: data model and extraction -/

/-- The fixed category list of `KappaCalculator.feedback_categories`. -/
def kappaCategories : List String :=
  ["overall", "theme", "objects", "sentiment", "contentQuality", "contentIntent"]

/-- `label_mapping.get(rating, -1)`: positive to 1, negative to 0, anything
else (including an absent/null feedback value) to the missing sentinel -1. -/
def labelMapping : Option String → Int
  | some "positive" => 1
  | some "negative" => 0
  | _ => -1

/-- One item of one reviewer input document: a post identifier plus the
per-category feedback object (a key mapped to null is the same as an
absent key after `dict.get`). -/
structure Post where
  postId : Nat
  feedback : List (String × Option String)
deriving DecidableEq, Repr, Inhabited

/-- `feedback.get(category)`: association-list lookup, absent key gives
`none`. -/
def fbGet (fb : List (String × Option String)) (c : String) : Option String :=
  (fb.lookup c).join

/-- One row of the flattened rating table built by
`KappaCalculator.extract_annotations`. -/
structure Rec where
  postId : Nat
  annotator : Nat
  category : String
  rating : Int
  ratingLabel : Option String
deriving DecidableEq, Repr, Inhabited

/-- `KappaCalculator.extract_annotations`: one record per
(file, post, category), annotator identity assigned by file order. -/
def extractAnnotations (files : List (List Post)) : List Rec :=
  files.enum.flatMap fun (idx, posts) =>
    posts.flatMap fun post =>
      kappaCategories.map fun c =>
        let rating := fbGet post.feedback c
        ⟨post.postId, idx + 1, c, labelMapping rating, rating⟩

/-! ## The pivot (pandas `DataFrame.pivot`) -/

/-- Sort key of the pivot: records ordered by (postId, annotator). -/
def recKeyLe (a b : Rec) : Bool :=
  Nat.blt a.postId b.postId ||
    (a.postId == b.postId && Nat.ble a.annotator b.annotator)

/-- Detect a duplicate (postId, annotator) pair in a key-sorted record list
(pandas `pivot` raises on duplicate entries). -/
def hasAdjDupKey : List Rec → Bool
  | r1 :: r2 :: rest =>
    (r1.postId == r2.postId && r1.annotator == r2.annotator) ||
      hasAdjDupKey (r2 :: rest)
  | _ => false

/-- Split the leading run of records sharing the given postId. -/
def takeRun (p : Nat) : List Rec → List Rec × List Rec
  | [] => ([], [])
  | r :: rs =>
    if r.postId == p then
      let (run, rest) := takeRun p rs
      (r :: run, rest)
    else ([], r :: rs)

/-- Group a key-sorted record list into pivot rows: one row per postId, one
cell per annotator column; a missing (postId, annotator) combination is a
pandas `NaN`, modelled as `none`. -/
def buildRows (anns : List Nat) : Nat → List Rec → List (Nat × List (Option Int))
  | _, [] => []
  | 0, _ => []
  | fuel+1, r :: rs =>
    let (run, rest) := takeRun r.postId (r :: rs)
    (r.postId,
      anns.map fun a => (run.find? (fun x => x.annotator == a)).map (·.rating))
      :: buildRows anns fuel rest

/-- `category_data.pivot(index=postId, columns=annotator, values=rating)`:
returns the sorted annotator columns and the rows (sorted by postId);
`none` models the `ValueError` pandas raises on duplicate entries. -/
def pivotRatings (cdf : List Rec) : Option (List Nat × List (Nat × List (Option Int))) :=
  let sorted := sortListBy recKeyLe cdf
  if hasAdjDupKey sorted then none
  else
    let anns := sortedUnique (cdf.map (·.annotator))
    some (anns, buildRows anns sorted.length sorted)

/-- Keep the pivot rows with no missing-rating sentinel: the
`(pivot != -1).all(axis=1)` mask (a pandas `NaN` cell passes `!= -1`). -/
def retainedCells (rows : List (List (Option Int))) : List (List (Option Int)) :=
  rows.filter fun row => row.all (· != some (-1))

/-- The retained rating matrix of one category: pivot then drop rows
containing the missing sentinel (the spec's "retained rows"). -/
def retainedRows (df : List Rec) (c : String) : List (List (Option Int)) :=
  match pivotRatings (df.filter (·.category == c)) with
  | none => []
  | some (_, rows) => retainedCells (rows.map (·.2))

/-! ## KappaCalculator: the two kappa preparations -/

/-- The two-column missing-data mask shared by
`prepare_matrix_for_cohens` and `calculate_confusion_matrices`: keep the
pivot rows whose first two annotator cells are not the -1 sentinel (a
pandas `NaN` cell passes `!= -1`). -/
def cohenClean (rows : List (List (Option Int))) : List (List (Option Int)) :=
  rows.filter fun row =>
    (row.getD 0 none != some (-1)) && (row.getD 1 none != some (-1))

/-- `KappaCalculator.prepare_matrix_for_cohens`: `none` models a raised
exception (pivot failure, or an annotator count different from two);
otherwise the two annotator columns restricted to rows where neither
column holds the -1 sentinel. -/
def prepareCohens (df : List Rec) (c : String) :
    Option (List (Option Int) × List (Option Int)) :=
  match pivotRatings (df.filter (·.category == c)) with
  | none => none
  | some (anns, rows) =>
    if anns.length != 2 then none
    else
      let clean := cohenClean (rows.map (·.2))
      some (clean.map (·.getD 0 none), clean.map (·.getD 1 none))

/-- `np.array_equal` on rating vectors: elementwise equality, where a
`NaN` (`none`) cell is equal to nothing, not even itself. -/
def npArrayEqual (xs ys : List (Option Int)) : Bool :=
  xs.length == ys.length &&
    (xs.zip ys).all fun p =>
      match p.1, p.2 with
      | some x, some y => x == y
      | _, _ => false

/-- Sorted distinct integer labels occurring in two rating vectors. -/
def intLabels (xs ys : List Int) : List Int :=
  dedupAdj (sortListBy (fun a b => decide (a ≤ b)) (xs ++ ys))

/-- `sklearn.metrics.cohen_kappa_score` on binary-free integer labels:
(observed agreement - expected agreement) / (1 - expected agreement),
expected agreement from the two marginal label distributions.  (Rational
division by zero yields 0; the callers below never reach that case because
identical vectors are intercepted first.) -/
def cohenKappaScore (y1 y2 : List Int) : ℚ :=
  let n : ℚ := y1.length
  let pairs := y1.zip y2
  let po : ℚ := (pairs.countP fun p => p.1 == p.2) / n
  let pe : ℚ := (intLabels y1 y2).foldr
    (fun l acc => acc + ((y1.countP (· == l) : ℚ) / n) * ((y2.countP (· == l) : ℚ) / n)) 0
  (po - pe) / (1 - pe)

/-- `KappaCalculator.calculate_cohens_kappa`: per category, a caught
exception gives `none`; identical rating arrays short-circuit to 1.0
(also reached by two empty arrays, since `np.array_equal([], []) == True`);
otherwise the rounded Cohen kappa.  A clean row containing a `NaN` cell
that is not intercepted by the equality test makes sklearn raise, caught
to `none`. -/
def calculateCohensKappa (df : List Rec) : List (String × Option ℚ) :=
  kappaCategories.map fun c =>
    (c,
      match prepareCohens df c with
      | none => none
      | some (r1, r2) =>
        if npArrayEqual r1 r2 then some 1
        else if r1.any (·.isNone) || r2.any (·.isNone) then none
        else some (round4 (cohenKappaScore (r1.filterMap id) (r2.filterMap id))))

/-- `KappaCalculator.prepare_matrix_for_fleiss`: pivot, drop rows holding
the -1 sentinel, raise (here: `none`) if no complete row remains; else the
per-row counts of negative (0) and positive (1) ratings — column order of
the count matrix is (count of 0s, count of 1s). -/
def prepareFleiss (df : List Rec) (c : String) : Option (List (Nat × Nat)) :=
  match pivotRatings (df.filter (·.category == c)) with
  | none => none
  | some (_, rows) =>
    let clean := retainedCells (rows.map (·.2))
    if clean.length == 0 then none
    else
      some (clean.map fun row =>
        (row.countP (· == some 0), row.countP (· == some 1)))

/-- `statsmodels.stats.inter_rater.fleiss_kappa` on a two-column count
matrix; `none` models the failed `assert n_total == n_sub * n_rat` when
rows carry unequal rater counts.  (Rational division by zero yields 0
where numpy would produce a silent NaN; no theorem depends on the value.) -/
def fleissKappa (table : List (Nat × Nat)) : Option ℚ :=
  let nSub : ℚ := table.length
  let nTotal : Nat := (table.map fun r => r.1 + r.2).sum
  let nRat : Nat := (table.map fun r => r.1 + r.2).foldr max 0
  if nTotal != table.length * nRat then none
  else
    let nRatQ : ℚ := nRat
    let pCat0 : ℚ := (table.map (·.1)).sum / (nTotal : ℚ)
    let pCat1 : ℚ := (table.map (·.2)).sum / (nTotal : ℚ)
    let pRats := table.map fun r =>
      (((r.1 * r.1 + r.2 * r.2 : Nat) : ℚ) - nRatQ) / (nRatQ * (nRatQ - 1))
    let pMean : ℚ := pRats.sum / nSub
    let pMeanExp : ℚ := pCat0 * pCat0 + pCat1 * pCat1
    some ((pMean - pMeanExp) / (1 - pMeanExp))

/-- `KappaCalculator.calculate_fleiss_kappa`: per category, any caught
exception (pivot failure, zero retained rows, failed statsmodels assert)
gives `none`; otherwise the rounded Fleiss kappa. -/
def calculateFleissKappa (df : List Rec) : List (String × Option ℚ) :=
  kappaCategories.map fun c =>
    (c,
      match prepareFleiss df c with
      | none => none
      | some table =>
        if table.length == 0 then none
        else
          match fleissKappa table with
          | none => none
          | some k => some (round4 k))

/-! ## KappaCalculator: raw agreement and confusion matrices -/

/-- Python `len(set(row.values)) == 1` on a pivot row: true when the row is
a single cell, or when all cells are present (non-NaN) and equal — two
distinct NaN cells are never equal in Python. -/
def isUnanimous (row : List (Option Int)) : Bool :=
  match row with
  | [] => false
  | [_] => true
  | x :: xs => (x :: xs).all (·.isSome) && xs.all (· == x)

/-- The per-category body of `KappaCalculator.calculate_raw_agreement`:
`none` when no retained row remains, else the rounded fraction of retained
rows on which every reviewer rating is identical. -/
def rawAgreeRows (rows : List (List (Option Int))) : Option ℚ :=
  let clean := retainedCells rows
  if clean.length == 0 then none
  else some (round4 ((clean.countP isUnanimous : ℚ) / clean.length))

/-- `KappaCalculator.calculate_raw_agreement`: per category, a pivot
failure is caught to `none`, otherwise the raw-agreement body. -/
def calculateRawAgreement (df : List Rec) : List (String × Option ℚ) :=
  kappaCategories.map fun c =>
    (c,
      match pivotRatings (df.filter (·.category == c)) with
      | none => none
      | some (_, rows) => rawAgreeRows (rows.map (·.2)))

/-- One per-category confusion matrix of
`KappaCalculator.calculate_confusion_matrices`. -/
structure ConfusionMatrix where
  posPos : Nat
  posNeg : Nat
  negPos : Nat
  negNeg : Nat
  totalItems : Nat
  ann1PositiveRate : ℚ
  ann2PositiveRate : ℚ
deriving DecidableEq, Repr, Inhabited

/-- The per-category 2x2 table of `calculate_confusion_matrices` over the
pivot rows: `none` when zero retained rows remain, else the four cells
over retained rows plus the per-annotator positive rates. -/
def confusionFromRows (rows : List (List (Option Int))) : Option ConfusionMatrix :=
  let clean := cohenClean rows
  if clean.length == 0 then none
  else
    let pp := clean.countP fun row =>
      row.getD 0 none == some 1 && row.getD 1 none == some 1
    let pn := clean.countP fun row =>
      row.getD 0 none == some 1 && row.getD 1 none == some 0
    let np := clean.countP fun row =>
      row.getD 0 none == some 0 && row.getD 1 none == some 1
    let nn := clean.countP fun row =>
      row.getD 0 none == some 0 && row.getD 1 none == some 0
    some
      { posPos := pp, posNeg := pn, negPos := np, negNeg := nn,
        totalItems := clean.length,
        ann1PositiveRate := round4 (((pp + pn : Nat) : ℚ) / clean.length),
        ann2PositiveRate := round4 (((pp + np : Nat) : ℚ) / clean.length) }

/-- `KappaCalculator.calculate_confusion_matrices`: the empty map when the
reviewer count differs from two; otherwise per category either `none`
(pivot failure, missing second annotator column, or zero retained rows) or
the 2x2 table over retained rows plus the per-annotator positive rates. -/
def calculateConfusionMatrices (df : List Rec) : List (String × Option ConfusionMatrix) :=
  let nAnn := (sortedUnique (df.map (·.annotator))).length
  if nAnn != 2 then []
  else
    kappaCategories.map fun c =>
      (c,
        match pivotRatings (df.filter (·.category == c)) with
        | none => none
        | some (anns, rows) =>
          match anns with
          | [_, _] => confusionFromRows (rows.map (·.2))
          | _ => none)

/-! ## KappaCalculator: aggregation -/

/-- `KappaCalculator._interpret_kappa`, reduced to its level string. -/
def interpretKappa : Option ℚ → String
  | none => "Unknown"
  | some k =>
    if k < 0 then "Poor"
    else if k < 1/5 then "Slight"
    else if k < 2/5 then "Fair"
    else if k < 3/5 then "Moderate"
    else if k < 4/5 then "Substantial"
    else "Almost Perfect"

/-- Lines 329-330 of `calculate_agreement`: the overall kappa is the
rounded arithmetic mean of the non-null per-category scores, or `None`
when every category score is null. -/
def meanNonNull (ks : List (String × Option ℚ)) : Option ℚ :=
  let valid := ks.filterMap (·.2)
  if valid.isEmpty then none
  else some (round4 (valid.sum / (valid.length : ℚ)))

/-- The result record of `KappaCalculator.calculate_agreement`. -/
structure AgreementResults where
  kappaType : String
  nAnnotators : Nat
  nPosts : Nat
  categoryScores : List (String × Option ℚ)
  overallKappa : Option ℚ
  rawAgreementScores : List (String × Option ℚ)
  overallRawAgreement : Option ℚ
  confusionMatrices : List (String × Option ConfusionMatrix)
  interpretationLevel : String
  rawData : List Rec
deriving DecidableEq, Repr, Inhabited

/-- The shared tail of `calculate_agreement` once a kappa variant is
chosen. -/
def agreementFrom (kappaType : String) (df : List Rec)
    (kScores : List (String × Option ℚ)) : AgreementResults :=
  let overall := meanNonNull kScores
  let raw := calculateRawAgreement df
  { kappaType := kappaType
    nAnnotators := (sortedUnique (df.map (·.annotator))).length
    nPosts := (sortedUnique (df.map (·.postId))).length
    categoryScores := kScores
    overallKappa := overall
    rawAgreementScores := raw
    overallRawAgreement := meanNonNull raw
    confusionMatrices := calculateConfusionMatrices df
    interpretationLevel := interpretKappa overall
    rawData := df }

/-- `KappaCalculator.calculate_agreement`: extract, pick Cohen (exactly 2
reviewers) or Fleiss (3 or more), aggregate.  Errors: an empty flattened
table makes the pandas column access raise a `KeyError`; fewer than two
reviewers raises `ValueError("Need at least 2 annotators")`. -/
def calculateAgreement (files : List (List Post)) : Except String AgreementResults :=
  let df := extractAnnotations files
  if df.isEmpty then Except.error "KeyError: annotator"
  else
    let nAnn := (sortedUnique (df.map (·.annotator))).length
    if nAnn == 2 then
      Except.ok (agreementFrom "Cohens Kappa" df (calculateCohensKappa df))
    else if 3 ≤ nAnn then
      Except.ok (agreementFrom "Fleiss Kappa" df (calculateFleissKappa df))
    else Except.error "Need at least 2 annotators"

/-- Boolean success test on an `Except` result. -/
def exceptIsOk : Except ε α → Bool
  | Except.ok _ => true
  | Except.error _ => false

/-! ## ModelEvaluator: data model and extraction -/

/-- The fixed category list of `ModelEvaluator.feedback_categories`
(`overall` is commented out in the source). -/
def evalCategories : List String :=
  ["theme", "objects", "sentiment", "contentQuality", "contentIntent"]

/-- A model-prediction value from the `llm` sub-object: an arbitrary JSON
value; the claims only need scalars versus sequences, so scalars are
modelled by the string and integer constructors. -/
inductive PredVal where
  | str : String → PredVal
  | num : Int → PredVal
  | list : List PredVal → PredVal

/-- One item of one reviewer input document in the evaluation variant:
post identifier, the model-prediction sub-object and the feedback
sub-object. -/
structure EvalPost where
  postId : Nat
  llm : List (String × Option PredVal)
  feedback : List (String × Option String)
deriving Inhabited

/-- `llm_predictions.get(field)`: absent key or null value give `none`. -/
def predGet (llm : List (String × Option PredVal)) (f : String) : Option PredVal :=
  (llm.lookup f).join

/-- The `field_name_map` of `ModelEvaluator.extract_evaluations`. -/
def fieldNameMap : String → Option String
  | "overall" => some "llmOverall"
  | "theme" => some "llmTheme"
  | "objects" => some "llmObjects"
  | "sentiment" => some "llmSentiment"
  | "contentQuality" => some "llmContentQuality"
  | "contentIntent" => some "llmContentIntent"
  | _ => none

/-- `llm_predictions.get(field_name_map.get(category))`: the raw model
prediction for a category before any list handling. -/
def rawPrediction (llm : List (String × Option PredVal)) (c : String) : Option PredVal :=
  match fieldNameMap c with
  | some f => predGet llm f
  | none => none

/-- The list handling of `extract_evaluations`:
`ai_prediction[0] if ai_prediction else None` applied when the value is a
list (an empty list becomes unavailable), identity otherwise. -/
def objFirst : Option PredVal → Option PredVal
  | some (PredVal.list l) => l.head?
  | x => x

/-- The prediction actually recorded by `extract_evaluations`: only for
the `objects` category, a list value is collapsed to its first element;
every other category keeps the raw value, lists included. -/
def extractPrediction (llm : List (String × Option PredVal)) (c : String) : Option PredVal :=
  let p := rawPrediction llm c
  if c == "objects" then objFirst p else p

/-- One row of the flattened evaluation table built by
`ModelEvaluator.extract_evaluations`. -/
structure EvalRec where
  postId : Nat
  annotator : Nat
  category : String
  aiPrediction : Option PredVal
  humanJudgment : Option String
  isCorrect : Int
deriving Inhabited

/-- The records contributed by one post of one reviewer document: one per
evaluation category, with the model prediction attached. -/
def postRecords (ann : Nat) (post : EvalPost) : List EvalRec :=
  evalCategories.map fun c =>
    let judgment := fbGet post.feedback c
    ⟨post.postId, ann, c, extractPrediction post.llm c, judgment, labelMapping judgment⟩

/-- `ModelEvaluator.extract_evaluations`: flatten all reviewer documents,
annotator identity assigned by file order. -/
def extractEvaluations (files : List (List EvalPost)) : List EvalRec :=
  files.enum.flatMap fun (idx, posts) =>
    posts.flatMap (postRecords (idx + 1))

/-! ## ModelEvaluator: consensus and aggregation -/

/-- Line 109-110 of `build_consensus`: all non-missing correctness votes
of one (category, post) pair, in record order. -/
def consensusVotes (df : List EvalRec) (c : String) (p : Nat) : List Int :=
  (df.filter fun r => r.category == c && r.postId == p && r.isCorrect != -1).map
    (·.isCorrect)

/-- `ModelEvaluator.build_consensus`: majority verdict, confidence and the
vote list for one (category, post) pair. -/
def buildConsensus (df : List EvalRec) (c : String) (p : Nat) : String × ℚ × List Int :=
  let judgments := consensusVotes df c p
  if judgments.isEmpty then ("no_data", 0, [])
  else
    let correctVotes := judgments.countP (· == 1)
    let incorrectVotes := judgments.countP (· == 0)
    let totalVotes := judgments.length
    if incorrectVotes < correctVotes then
      ("correct", (correctVotes : ℚ) / totalVotes, judgments)
    else if correctVotes < incorrectVotes then
      ("incorrect", (incorrectVotes : ℚ) / totalVotes, judgments)
    else ("uncertain", 1/2, judgments)

/-- The per-category metrics of `ModelEvaluator.evaluate_category`. -/
structure CategoryEvalResult where
  correct : Nat
  incorrect : Nat
  uncertain : Nat
  noData : Nat
  totalPosts : Nat
  totalEvaluated : Nat
  accuracy : ℚ
  errorRate : ℚ
  consensusDetails : List (Nat × String × ℚ × List Int)
deriving DecidableEq, Repr, Inhabited

/-- `ModelEvaluator.evaluate_category`: consensus per post of the
category, verdict counts, accuracy and error rate over the decisive
(correct/incorrect) verdicts only — both reported as 0 when no verdict is
decisive. -/
def evaluateCategory (df : List EvalRec) (c : String) : CategoryEvalResult :=
  let catData := df.filter (·.category == c)
  let postIds := uniqueFirst (catData.map (·.postId))
  let details := postIds.map fun p =>
    let r := buildConsensus df c p
    (p, r.1, round4 r.2.1, r.2.2)
  let correct := details.countP (fun d => d.2.1 == "correct")
  let incorrect := details.countP (fun d => d.2.1 == "incorrect")
  let uncertain := details.countP (fun d => d.2.1 == "uncertain")
  let noData := details.countP
    (fun d => !(d.2.1 == "correct" || d.2.1 == "incorrect" || d.2.1 == "uncertain"))
  let totalEvaluated := correct + incorrect
  { correct := correct, incorrect := incorrect, uncertain := uncertain,
    noData := noData, totalPosts := postIds.length,
    totalEvaluated := totalEvaluated,
    accuracy := if totalEvaluated != 0 then round4 ((correct : ℚ) / totalEvaluated) else 0,
    errorRate := if totalEvaluated != 0 then round4 ((incorrect : ℚ) / totalEvaluated) else 0,
    consensusDetails := details }

/-- The result record of `ModelEvaluator.evaluate_model`. -/
structure EvalResults where
  nAnnotators : Nat
  nPosts : Nat
  categoryResults : List (String × CategoryEvalResult)
  totalCorrect : Nat
  totalIncorrect : Nat
  totalUncertain : Nat
  totalEvaluated : Nat
  overallAccuracy : ℚ
  overallErrorRate : ℚ
  rawData : List EvalRec
deriving Inhabited

/-- `ModelEvaluator.evaluate_model`: extract, evaluate every category,
sum the decisive counts across categories.  The only failure is the
pandas `KeyError` on an empty flattened table; in particular no reviewer
count check is performed. -/
def evaluateModel (files : List (List EvalPost)) : Except String EvalResults :=
  let df := extractEvaluations files
  if df.isEmpty then Except.error "KeyError: annotator"
  else
    let catResults := evalCategories.map fun c => (c, evaluateCategory df c)
    let totalCorrect := (catResults.map (·.2.correct)).sum
    let totalIncorrect := (catResults.map (·.2.incorrect)).sum
    let totalUncertain := (catResults.map (·.2.uncertain)).sum
    let totalEvaluated := totalCorrect + totalIncorrect
    Except.ok
      { nAnnotators := (sortedUnique (df.map (·.annotator))).length
        nPosts := (sortedUnique (df.map (·.postId))).length
        categoryResults := catResults
        totalCorrect := totalCorrect
        totalIncorrect := totalIncorrect
        totalUncertain := totalUncertain
        totalEvaluated := totalEvaluated
        overallAccuracy :=
          if totalEvaluated != 0 then round4 ((totalCorrect : ℚ) / totalEvaluated) else 0
        overallErrorRate :=
          if totalEvaluated != 0 then round4 ((totalIncorrect : ℚ) / totalEvaluated) else 0
        rawData := df }

/-! ## ModelEvaluator: problem posts -/

/-- One entry of the problem-post list of
`ModelEvaluator.identify_problem_posts`. -/
structure ProblemPost where
  postId : Nat
  errors : Nat
  total : Nat
  errorRate : ℚ
deriving DecidableEq, Repr, Inhabited

/-- The consensus verdicts of one post across the evaluation categories. -/
def postVerdicts (df : List EvalRec) (p : Nat) : List String :=
  evalCategories.map fun c => (buildConsensus df c p).1

/-- Count of categories with an incorrect consensus for one post. -/
def errCount (df : List EvalRec) (p : Nat) : Nat :=
  (postVerdicts df p).countP (· == "incorrect")

/-- Count of categories with a decisive (correct or incorrect) consensus
for one post. -/
def decisiveCount (df : List EvalRec) (p : Nat) : Nat :=
  (postVerdicts df p).countP (fun v => v == "correct" || v == "incorrect")

/-- The flagged posts in first-encounter order, before sorting: a post is
flagged when it has a decisive verdict and its incorrect fraction
strictly exceeds one half. -/
def flaggedPosts (df : List EvalRec) : List ProblemPost :=
  (uniqueFirst (df.map (·.postId))).filterMap fun p =>
    let errors := errCount df p
    let total := decisiveCount df p
    if 0 < total then
      let er : ℚ := (errors : ℚ) / total
      if 1/2 < er then some ⟨p, errors, total, round4 er⟩ else none
    else none

/-- Descending stable order on error rate (Python
`sorted(key=error_rate, reverse=True)` keeps encounter order on ties). -/
def ppLe (a b : ProblemPost) : Bool := decide (b.errorRate ≤ a.errorRate)

/-- Insert keeping the earlier element first among equals. -/
def insertBy (le : α → α → Bool) (x : α) : List α → List α
  | [] => [x]
  | y :: ys => if le x y then x :: y :: ys else y :: insertBy le x ys

/-- Stable insertion sort (the semantics of Python `sorted`). -/
def insertionSortBy (le : α → α → Bool) : List α → List α
  | [] => []
  | x :: xs => insertBy le x (insertionSortBy le xs)

/-- `ModelEvaluator.identify_problem_posts` on the result record: flag
high-error posts from the raw flattened table and sort them by error rate
descending (stable). -/
def identifyProblemPosts (results : EvalResults) : List ProblemPost :=
  insertionSortBy ppLe (flaggedPosts results.rawData)

/-! ## Concrete inputs used by the witness and counterexample theorems -/

/-- A post rated in the sentiment category only. -/
def sentPost (pid : Nat) (v : Option String) : Post := ⟨pid, [("sentiment", v)]⟩

/-- An evaluation post with feedback in the theme category only. -/
def themeEvalPost (pid : Nat) (v : Option String) : EvalPost :=
  ⟨pid, [], [("theme", v)]⟩

/-- An evaluation post with feedback in three categories. -/
def threeCatEvalPost (pid : Nat) (t o s : Option String) : EvalPost :=
  ⟨pid, [], [("theme", t), ("objects", o), ("sentiment", s)]⟩

/-- Two reviewers, one post, no feedback at all: every rating is the
missing sentinel, so every category has zero retained rows. -/
def c1Files : List (List Post) := [[⟨1, []⟩], [⟨1, []⟩]]

/-- Three reviewers, one post, no feedback at all (Fleiss mode with zero
retained rows everywhere). -/
def c1wFleissFiles : List (List Post) := [[⟨1, []⟩], [⟨1, []⟩], [⟨1, []⟩]]

/-- A single reviewer document for the evaluation pipeline. -/
def c2Files : List (List EvalPost) :=
  [[⟨1, [("llmTheme", some (PredVal.num 1))], [("theme", some "positive")]⟩]]

/-- A single reviewer document for the agreement pipeline. -/
def c2wKFiles : List (List Post) := [[sentPost 1 (some "positive")]]

/-- A post whose theme prediction and objects prediction are both lists. -/
def c3Post : EvalPost :=
  ⟨1,
   [("llmTheme", some (PredVal.list [PredVal.num 1, PredVal.num 2])),
    ("llmObjects", some (PredVal.list [PredVal.num 7, PredVal.num 8]))],
   [("theme", some "positive")]⟩

/-- One reviewer holding `c3Post`. -/
def c3Files : List (List EvalPost) := [[c3Post]]

/-- The theme record extracted from `c3Post` (head of its record list). -/
def c3wRec : EvalRec :=
  ⟨1, 1, "theme", extractPrediction c3Post.llm "theme",
   fbGet c3Post.feedback "theme", labelMapping (fbGet c3Post.feedback "theme")⟩

/-- Two reviewers agreeing on one sentiment rating. -/
def c4Df : List Rec :=
  extractAnnotations [[sentPost 1 (some "positive")], [sentPost 1 (some "positive")]]

/-- Three reviewers voting 1, 1, 0 on the theme of one post. -/
def c5Df : List EvalRec :=
  extractEvaluations
    [[themeEvalPost 1 (some "positive")],
     [themeEvalPost 1 (some "positive")],
     [themeEvalPost 1 (some "negative")]]

/-- A 20000-row retained matrix: 19999 unanimous rows and one
disagreeing row, whose raw-agreement fraction 19999/20000 rounds to 1.0. -/
def c6Rows : List (List (Option Int)) :=
  List.replicate 19999 [some 1, some 1] ++ [[some 1, some 0]]

/-- Two reviewers over five posts, sentiment ratings [1,1,0,1,0] and
[1,0,0,1,1] (the end-to-end scenario of the spec). -/
def c6wDf : List Rec :=
  extractAnnotations
    [[sentPost 1 (some "positive"), sentPost 2 (some "positive"),
      sentPost 3 (some "negative"), sentPost 4 (some "positive"),
      sentPost 5 (some "negative")],
     [sentPost 1 (some "positive"), sentPost 2 (some "negative"),
      sentPost 3 (some "negative"), sentPost 4 (some "positive"),
      sentPost 5 (some "positive")]]

/-- The sentiment raw-agreement score of `c6wDf`. -/
def c6wScore : ℚ :=
  match (calculateRawAgreement c6wDf).lookup "sentiment" with
  | some (some q) => q
  | _ => 0

/-- The input files of the C7 witness run. -/
def c7Files : List (List Post) :=
  [[sentPost 1 (some "positive"), sentPost 2 (some "positive"),
    sentPost 3 (some "negative")],
   [sentPost 1 (some "positive"), sentPost 2 (some "negative"),
    sentPost 3 (some "negative")]]

/-- The agreement results of the C7 witness run. -/
def c7Res : AgreementResults :=
  match calculateAgreement c7Files with
  | Except.ok r => r
  | Except.error _ => default

/-- The flattened table of the C8 witness run. -/
def c8Df : List Rec :=
  extractAnnotations
    [[sentPost 1 (some "positive"), sentPost 2 (some "negative"),
      sentPost 3 (some "positive")],
     [sentPost 1 (some "positive"), sentPost 2 (some "positive"),
      sentPost 3 (some "negative")]]

/-- The sentiment confusion matrix of the C8 witness run. -/
def c8Cm : ConfusionMatrix :=
  match (calculateConfusionMatrices c8Df).lookup "sentiment" with
  | some (some cm) => cm
  | _ => default

/-- One reviewer, two posts: post 1 has 2 incorrect and 1 correct
decisive verdicts (flagged), post 2 has 1 of 3 (not flagged). -/
def c9Files : List (List EvalPost) :=
  [[threeCatEvalPost 1 (some "negative") (some "negative") (some "positive"),
    threeCatEvalPost 2 (some "negative") (some "positive") (some "positive")]]

/-- The evaluation results of the C9 witness run. -/
def c9Res : EvalResults :=
  match evaluateModel c9Files with
  | Except.ok r => r
  | Except.error _ => default

/-- A table whose only record carries the missing sentinel. -/
def c10Df : List EvalRec := [⟨1, 1, "theme", none, none, -1⟩]

/-! ## Helper lemmas -/

theorem lookup_map_self {β : Type} (f : String → β) (L : List String) (c : String)
    (h : c ∈ L) : (L.map fun x => (x, f x)).lookup c = some (f c) := by
  induction L with
  | nil => cases h
  | cons a L ih =>
    simp only [List.map_cons, List.lookup]
    rcases eq_or_ne c a with hca | hca
    · subst hca; simp
    · have hb : (c == a) = false := beq_eq_false_iff_ne.mpr hca
      rw [hb]
      exact ih (List.mem_of_ne_of_mem hca h)

theorem lookup_map_eq {β : Type} (f : String → β) (L : List String) (c : String)
    (v : β) (h : (L.map fun x => (x, f x)).lookup c = some v) : v = f c := by
  induction L with
  | nil => simp [List.lookup] at h
  | cons a L ih =>
    simp only [List.map_cons, List.lookup] at h
    rcases hb : (c == a) with _ | _
    · rw [hb] at h
      exact ih h
    · rw [hb] at h
      have hca : c = a := beq_iff_eq.mp hb
      cases h
      rw [hca]

theorem npArrayEqual_self (xs : List (Option Int))
    (h : ∀ x ∈ xs, x.isSome = true) : npArrayEqual xs xs = true := by
  unfold npArrayEqual
  simp only [beq_self_eq_true, Bool.true_and]
  induction xs with
  | nil => rfl
  | cons a l ih =>
    have ha := h a (List.mem_cons_self a l)
    have ih2 := ih fun x hx => h x (List.mem_cons_of_mem a hx)
    simp only [List.zip_cons_cons, List.all_cons, ih2, Bool.and_true]
    rcases hs : a with _ | x
    · rw [hs] at ha
      simp at ha
    · simp

theorem countP_zero_one (l : List Int) (h : ∀ v ∈ l, v = 1 ∨ v = 0) :
    l.countP (· == 1) + l.countP (· == 0) = l.length := by
  induction l with
  | nil => rfl
  | cons a l ih =>
    have ha := h a (List.mem_cons_self a l)
    have ih2 := ih fun v hv => h v (List.mem_cons_of_mem a hv)
    simp only [List.countP_cons, List.length_cons]
    rcases ha with ha | ha <;> subst ha <;> simp <;> omega

/-! ## C10 -/

/-- C10: when no non-missing votes exist for an (item, category) pair,
`build_consensus` returns verdict `no_data` with confidence exactly 0 and
an empty vote list (never the tie confidence 0.5, never an exception). -/
theorem c10_no_votes (df : List EvalRec) (c : String) (p : Nat)
    (h : consensusVotes df c p = []) :
    buildConsensus df c p = ("no_data", 0, []) := by
  unfold buildConsensus
  rw [h]
  rfl

/-- Witness for C10 at a table whose only record is a missing vote. -/
theorem c10_no_votes_witness :
    consensusVotes c10Df "theme" 1 = [] ∧
      buildConsensus c10Df "theme" 1 = ("no_data", 0, []) :=
  ⟨rfl, c10_no_votes c10Df "theme" 1 rfl⟩

/-! ## C5 -/

/-- C5: the consensus verdict follows the vote counts: no votes gives
`no_data`; strictly more correct votes gives `correct` with confidence
correct/total; strictly more incorrect gives `incorrect` with confidence
incorrect/total; an exact tie with at least one vote gives `uncertain`
with confidence exactly one half.  The correct and incorrect votes
exhaust the vote list. -/
theorem c5_consensus (df : List EvalRec) (c : String) (p : Nat)
    (hwf : ∀ r ∈ df, r.isCorrect = 1 ∨ r.isCorrect = 0 ∨ r.isCorrect = -1) :
    (consensusVotes df c p).countP (· == 1) + (consensusVotes df c p).countP (· == 0)
        = (consensusVotes df c p).length ∧
    (consensusVotes df c p = [] → buildConsensus df c p = ("no_data", 0, [])) ∧
    ((consensusVotes df c p).countP (· == 0) < (consensusVotes df c p).countP (· == 1) →
      buildConsensus df c p =
        ("correct",
          ((consensusVotes df c p).countP (· == 1) : ℚ) / (consensusVotes df c p).length,
          consensusVotes df c p)) ∧
    ((consensusVotes df c p).countP (· == 1) < (consensusVotes df c p).countP (· == 0) →
      buildConsensus df c p =
        ("incorrect",
          ((consensusVotes df c p).countP (· == 0) : ℚ) / (consensusVotes df c p).length,
          consensusVotes df c p)) ∧
    (consensusVotes df c p ≠ [] →
      (consensusVotes df c p).countP (· == 1) = (consensusVotes df c p).countP (· == 0) →
      buildConsensus df c p = ("uncertain", 1/2, consensusVotes df c p)) := by
  have hvotes : ∀ v ∈ consensusVotes df c p, v = 1 ∨ v = 0 := by
    intro v hv
    unfold consensusVotes at hv
    rcases List.mem_map.mp hv with ⟨r, hr, hrv⟩
    have hrdf := List.mem_of_mem_filter hr
    have hprop := List.of_mem_filter hr
    simp only [Bool.and_eq_true, bne_iff_ne, ne_eq] at hprop
    rcases hwf r hrdf with h1 | h1 | h1
    · left; rw [← hrv, h1]
    · right; rw [← hrv, h1]
    · exact absurd h1 hprop.2
  refine ⟨countP_zero_one _ hvotes, ?_, ?_, ?_, ?_⟩
  · intro h
    unfold buildConsensus
    rw [h]
    rfl
  · intro hlt
    unfold buildConsensus
    rw [if_neg, if_pos hlt]
    intro hemp
    rw [List.isEmpty_iff.mp hemp] at hlt
    simp at hlt
  · intro hlt
    unfold buildConsensus
    have hne : ¬ (consensusVotes df c p).countP (· == 0) < (consensusVotes df c p).countP (· == 1) :=
      Nat.not_lt.mpr (Nat.le_of_lt hlt)
    rw [if_neg, if_neg hne, if_pos hlt]
    intro hemp
    rw [List.isEmpty_iff.mp hemp] at hlt
    simp at hlt
  · intro hne heq
    unfold buildConsensus
    rw [if_neg, if_neg (by omega), if_neg (by omega)]
    simpa using hne

/-- Witness for C5 on the vote pattern [1, 1, 0]. -/
theorem c5_consensus_witness :
    buildConsensus c5Df "theme" 1 =
      ("correct",
        ((consensusVotes c5Df "theme" 1).countP (· == 1) : ℚ) /
          (consensusVotes c5Df "theme" 1).length,
        consensusVotes c5Df "theme" 1) ∧
    buildConsensus c5Df "theme" 1 = ("correct", (2 : ℚ)/3, [1, 1, 0]) := by
  refine ⟨(c5_consensus c5Df "theme" 1 (by decide)).2.2.1 (by decide), ?_⟩
  rw [(c5_consensus c5Df "theme" 1 (by decide)).2.2.1 (by decide)]
  have h1 : consensusVotes c5Df "theme" 1 = [1, 1, 0] := by decide
  rw [h1]
  norm_num

/-! ## C2 -/

/-- C2 counterexample: `evaluate_model` succeeds for a single-reviewer
input (the reviewer count is 1), so the evaluation run does not fail when
fewer than two usable reviewers are present. -/
theorem c2_counterexample :
    (sortedUnique ((extractEvaluations c2Files).map (·.annotator))).length = 1 ∧
      exceptIsOk (evaluateModel c2Files) = true := by
  constructor
  · rfl
  · rfl

/-- C2 amended: the agreement run (`calculate_agreement`) fails whenever
the flattened table holds fewer than two distinct reviewers, but the
evaluation run (`evaluate_model`) performs no reviewer-count check: it
succeeds on every input whose flattened table is nonempty, including
single-reviewer inputs. -/
theorem c2_amended :
    (∀ files : List (List Post),
      (sortedUnique ((extractAnnotations files).map (·.annotator))).length < 2 →
      exceptIsOk (calculateAgreement files) = false) ∧
    (∀ files : List (List EvalPost),
      (extractEvaluations files).isEmpty = false →
      exceptIsOk (evaluateModel files) = true) := by
  constructor
  · intro files h
    unfold calculateAgreement
    rcases he : (extractAnnotations files).isEmpty with _ | _
    · simp only [he, Bool.false_eq_true, if_false]
      rw [if_neg, if_neg]
      · rfl
      · omega
      · simp only [beq_iff_eq]
        omega
    · simp [he, exceptIsOk]
  · intro files h
    simp only [evaluateModel, h]
    rfl

/-- Witness for C2 amended at a one-reviewer agreement input and a
one-reviewer evaluation input. -/
theorem c2_amended_witness :
    exceptIsOk (calculateAgreement c2wKFiles) = false ∧
      exceptIsOk (evaluateModel c2Files) = true :=
  ⟨c2_amended.1 c2wKFiles (by decide), c2_amended.2 c2Files rfl⟩

/-! ## C3 -/

/-- C3 counterexample: for the theme category a list-valued model
prediction is kept whole by `extract_evaluations` — it is neither
collapsed to its first element nor discarded — so the claimed
first-element extraction does not hold for every category. -/
theorem c3_counterexample :
    ((extractEvaluations c3Files).find? (·.category == "theme")).map (·.aiPrediction)
        = some (some (PredVal.list [PredVal.num 1, PredVal.num 2])) ∧
      ((extractEvaluations c3Files).find? (·.category == "theme")).map (·.aiPrediction)
        ≠ some (some (PredVal.num 1)) := by
  constructor
  · rfl
  · intro h
    rw [show ((extractEvaluations c3Files).find? (·.category == "theme")).map (·.aiPrediction)
          = some (some (PredVal.list [PredVal.num 1, PredVal.num 2])) from rfl] at h
    have h1 := Option.some.inj h
    have h2 := Option.some.inj h1
    exact PredVal.noConfusion h2

/-- C3 amended: in every extracted record, the recorded prediction equals
the raw source value except for the objects category, where a list value
is collapsed to its first element (an empty list to an unavailable
prediction). -/
theorem c3_amended (ann : Nat) (post : EvalPost) (r : EvalRec)
    (hr : r ∈ postRecords ann post) :
    (r.category = "objects" →
      r.aiPrediction = objFirst (rawPrediction post.llm "objects")) ∧
    (r.category ≠ "objects" →
      r.aiPrediction = rawPrediction post.llm r.category) := by
  rcases List.mem_map.mp hr with ⟨c, _, hrc⟩
  have hcat : r.category = c := by rw [← hrc]
  have hpred : r.aiPrediction = extractPrediction post.llm c := by rw [← hrc]
  constructor
  · intro hobj
    rw [hpred, hcat.symm.trans hobj, extractPrediction]
    simp
  · intro hobj
    rw [hcat] at hobj
    rw [hpred, hcat, extractPrediction]
    simp only [beq_eq_false_iff_ne.mpr hobj, Bool.false_eq_true, if_false]

/-- Witness for C3 amended: the theme record of `c3Post` keeps the raw
list value. -/
theorem c3_amended_witness :
    c3wRec.aiPrediction = rawPrediction c3Post.llm "theme" ∧
      rawPrediction c3Post.llm "theme"
        = some (PredVal.list [PredVal.num 1, PredVal.num 2]) :=
  ⟨(c3_amended 1 c3Post c3wRec (List.Mem.head _)).2 (by decide), rfl⟩

/-! ## C4 -/

/-- C4: with exactly two reviewers, identical retained rating sequences
(on present ratings) make the category score exactly 1.0, bypassing the
general chance-corrected formula. -/
theorem c4_identical (df : List Rec) (c : String) (r1 r2 : List (Option Int))
    (hc : c ∈ kappaCategories)
    (hp : prepareCohens df c = some (r1, r2))
    (heq : r1 = r2)
    (hcomp : ∀ x ∈ r1, x.isSome = true) :
    (calculateCohensKappa df).lookup c = some (some 1) := by
  rw [calculateCohensKappa, lookup_map_self _ _ _ hc, hp]
  subst heq
  simp [npArrayEqual_self r1 hcomp]

/-- Witness for C4 on two reviewers with one identical retained rating. -/
theorem c4_identical_witness :
    (calculateCohensKappa c4Df).lookup "sentiment" = some (some 1) :=
  c4_identical c4Df "sentiment" [some 1] [some 1] (by decide) (by decide) rfl
    (by decide)

/-! ## C1 -/

/-- C1 counterexample: a category whose pivot has two annotator columns
but zero retained rows gets score 1.0 from the Cohen path, not null: the
two empty rating arrays compare equal and trigger the perfect-agreement
branch. -/
theorem c1_counterexample :
    prepareCohens (extractAnnotations c1Files) "theme" = some ([], []) ∧
      (calculateCohensKappa (extractAnnotations c1Files)).lookup "theme"
        = some (some 1) := by
  constructor
  · decide
  · rfl

/-- C1 amended: with three or more reviewers (Fleiss path) a category
with zero retained rows yields a null score; but on the Cohen path a
category with two annotator columns and zero retained rows yields exactly
1.0 instead of null. -/
theorem c1_amended (df : List Rec) (c : String) (hc : c ∈ kappaCategories) :
    (prepareCohens df c = some ([], []) →
      (calculateCohensKappa df).lookup c = some (some 1)) ∧
    (∀ anns rows, pivotRatings (df.filter (·.category == c)) = some (anns, rows) →
      retainedCells (rows.map (·.2)) = [] →
      (calculateFleissKappa df).lookup c = some none) := by
  constructor
  · intro hp
    rw [calculateCohensKappa, lookup_map_self _ _ _ hc, hp]
    rfl
  · intro anns rows hpiv hclean
    rw [calculateFleissKappa, lookup_map_self _ _ _ hc]
    have hpf : prepareFleiss df c = none := by
      rw [prepareFleiss, hpiv]
      simp [hclean]
    rw [hpf]

/-- Witness for C1 amended: the Cohen part at a two-reviewer no-feedback
input, the Fleiss part at a three-reviewer no-feedback input. -/
theorem c1_amended_witness :
    (calculateCohensKappa (extractAnnotations c1Files)).lookup "theme"
        = some (some 1) ∧
      (calculateFleissKappa (extractAnnotations c1wFleissFiles)).lookup "theme"
        = some none := by
  constructor
  · exact (c1_amended (extractAnnotations c1Files) "theme" (by decide)).1 (by decide)
  · exact (c1_amended (extractAnnotations c1wFleissFiles) "theme" (by decide)).2
      (sortedUnique ((extractAnnotations c1wFleissFiles).filter
          (·.category == "theme") |>.map (·.annotator)))
      (buildRows
        (sortedUnique ((extractAnnotations c1wFleissFiles).filter
            (·.category == "theme") |>.map (·.annotator)))
        ((sortListBy recKeyLe ((extractAnnotations c1wFleissFiles).filter
            (·.category == "theme"))).length)
        (sortListBy recKeyLe ((extractAnnotations c1wFleissFiles).filter
            (·.category == "theme"))))
      (by decide) (by decide)

/-! ## C7 -/

/-- C7: the overall chance-corrected score stored by
`calculate_agreement` is the (4-decimal rounded) arithmetic mean of
exactly the non-null per-category scores — null categories are excluded
from the mean, not treated as zero — and the overall score is null
precisely when every per-category score is null. -/
theorem c7_overall (files : List (List Post)) (res : AgreementResults)
    (h : calculateAgreement files = Except.ok res) :
    res.overallKappa = meanNonNull res.categoryScores ∧
      (res.overallKappa = none ↔ ∀ s ∈ res.categoryScores, s.2 = none) := by
  have hbody : res.overallKappa = meanNonNull res.categoryScores := by
    unfold calculateAgreement at h
    by_cases h1 : (extractAnnotations files).isEmpty
    · rw [if_pos h1] at h
      cases h
    · rw [if_neg h1] at h
      by_cases h2 : (sortedUnique ((extractAnnotations files).map (·.annotator))).length == 2
      · rw [if_pos h2] at h
        cases h
        rfl
      · rw [if_neg h2] at h
        by_cases h3 : 3 ≤ (sortedUnique ((extractAnnotations files).map (·.annotator))).length
        · rw [if_pos h3] at h
          cases h
          rfl
        · rw [if_neg h3] at h
          cases h
  refine ⟨hbody, ?_⟩
  rw [hbody]
  unfold meanNonNull
  by_cases hv : (res.categoryScores.filterMap (·.2)).isEmpty
  · simp only [hv, if_true]
    rw [List.isEmpty_iff] at hv
    simp only [true_iff]
    intro s hs
    rcases hval : s.2 with _ | v
    · rfl
    · exact absurd (List.mem_filterMap.mpr ⟨s, hs, hval⟩) (by rw [hv]; simp)
  · simp only [hv, Bool.false_eq_true, if_false]
    constructor
    · intro hcontra
      cases hcontra
    · intro hall
      exfalso
      apply hv
      rw [List.isEmpty_iff, List.filterMap_eq_nil_iff]
      intro s hs
      exact hall s hs

/-- Witness for C7 at a concrete two-reviewer run. -/
theorem c7_overall_witness :
    calculateAgreement c7Files = Except.ok c7Res ∧
      c7Res.overallKappa = meanNonNull c7Res.categoryScores :=
  ⟨rfl, (c7_overall c7Files c7Res rfl).1⟩

/-! ## C6 -/

theorem round4_nonneg {q : ℚ} (h : 0 ≤ q) : 0 ≤ round4 q := by
  unfold round4
  have h1 : (0 : ℤ) ≤ round (q * 10000) := by
    rw [round_eq]
    apply Int.floor_nonneg.mpr
    have : (0 : ℚ) ≤ q * 10000 := by positivity
    linarith
  have h2 : (0 : ℚ) ≤ ((round (q * 10000) : ℤ) : ℚ) := by exact_mod_cast h1
  positivity

theorem round4_le_one {q : ℚ} (h : q ≤ 1) : round4 q ≤ 1 := by
  unfold round4
  have h1 : round (q * 10000) ≤ (10000 : ℤ) := by
    rw [round_eq]
    have h2 : q * 10000 + 1/2 ≤ 10000 + 1/2 := by nlinarith
    calc ⌊q * 10000 + 1/2⌋ ≤ ⌊(10000 : ℚ) + 1/2⌋ := Int.floor_le_floor h2
      _ = 10000 := by norm_num
  rw [div_le_one (by norm_num)]
  exact_mod_cast h1

theorem round4_one : round4 1 = 1 := by
  unfold round4
  rw [round_eq]
  norm_num

/-- C6 counterexample: a category with 20000 retained rows of which
19999 are unanimous reports the raw agreement score 1.0 even though one
retained row is not unanimous — the 4-decimal rounding of 19999/20000
reaches 1.0 — refuting the only-if direction of the claim. -/
theorem c6_counterexample :
    retainedCells c6Rows = c6Rows ∧
      (retainedCells c6Rows).length = 20000 ∧
      rawAgreeRows c6Rows = some 1 ∧
      c6Rows.all isUnanimous = false := by
  have hret : retainedCells c6Rows = c6Rows := by
    unfold retainedCells c6Rows
    rw [List.filter_eq_self]
    intro row hrow
    rcases List.mem_append.mp hrow with hrow | hrow
    · rw [(List.mem_replicate.mp hrow).2]
      decide
    · rw [List.mem_singleton.mp hrow]
      decide
  have hlen : c6Rows.length = 20000 := by
    unfold c6Rows
    rw [List.length_append, List.length_replicate]
    rfl
  have hcount : c6Rows.countP isUnanimous = 19999 := by
    unfold c6Rows
    rw [List.countP_append]
    have h1 : (List.replicate 19999 ([some 1, some 1] : List (Option Int))).countP
        isUnanimous = 19999 := by
      rw [List.countP_eq_length.mpr fun a ha => by
        rw [(List.mem_replicate.mp ha).2]; decide]
      exact List.length_replicate 19999 _
    have h2 : ([[some 1, some 0]] : List (List (Option Int))).countP isUnanimous = 0 := by
      decide
    rw [h1, h2]
  refine ⟨hret, by rw [hret]; exact hlen, ?_, ?_⟩
  · unfold rawAgreeRows
    rw [hret]
    simp only [hlen, hcount]
    norm_num
    unfold round4
    rw [show ((19999 : ℚ) / 20000) * 10000 = 19999 / 2 by norm_num, round_eq]
    norm_num
  · unfold c6Rows
    rw [List.all_append]
    have h2 : ([[some 1, some 0]] : List (List (Option Int))).all isUnanimous = false := by
      decide
    rw [h2, Bool.and_false]

/-- C6 amended: every non-null raw agreement score lies in [0,1]; it
equals 1.0 whenever every retained row is unanimous; and the converse
(1.0 only with unanimity) holds for categories with fewer than 20000
retained rows — at 20000 or more rows the 4-decimal rounding can reach
1.0 without unanimity. -/
theorem c6_amended (df : List Rec) (c : String) (q : ℚ)
    (h : (calculateRawAgreement df).lookup c = some (some q)) :
    0 ≤ q ∧ q ≤ 1 ∧
      ((retainedRows df c).all isUnanimous = true → q = 1) ∧
      ((retainedRows df c).length < 20000 → q = 1 →
        (retainedRows df c).all isUnanimous = true) := by
  have hfc := lookup_map_eq _ _ _ _ ((calculateRawAgreement.eq_def df ▸ h))
  rcases hpiv : pivotRatings (df.filter (·.category == c)) with _ | ⟨anns, rows⟩
  · rw [hpiv] at hfc
    cases hfc
  · rw [hpiv] at hfc
    have hrr : retainedRows df c = retainedCells (rows.map (·.2)) := by
      unfold retainedRows
      rw [hpiv]
    have hfc2 : some q = rawAgreeRows (rows.map (·.2)) := hfc
    clear hfc
    rename' hfc2 => hfc
    simp only [rawAgreeRows] at hfc
    rcases hlen : (retainedCells (rows.map (·.2))).length == 0 with _ | _
    · rw [hlen] at hfc
      simp only [Bool.false_eq_true, if_false] at hfc
      have hq := (Option.some.inj hfc).symm
      have htpos : 0 < (retainedCells (rows.map (·.2))).length :=
        Nat.pos_of_ne_zero (beq_eq_false_iff_ne.mp hlen)
      set clean := retainedCells (rows.map (·.2)) with hcleandef
      set u := clean.countP isUnanimous with hudef
      set t := clean.length with htdef
      have hut : u ≤ t := List.countP_le_length _
      have htQ : (0 : ℚ) < (t : ℚ) := by exact_mod_cast htpos
      have hfrac0 : (0 : ℚ) ≤ (u : ℚ) / (t : ℚ) := by positivity
      have hfrac1 : (u : ℚ) / (t : ℚ) ≤ 1 := by
        rw [div_le_one htQ]
        exact_mod_cast hut
      refine ⟨hq ▸ round4_nonneg hfrac0, hq ▸ round4_le_one hfrac1, ?_, ?_⟩
      · intro hall
        have hut2 : u = t :=
          List.countP_eq_length.mpr (List.all_eq_true.mp (hrr ▸ hall))
        rw [← hq, hut2, div_self (ne_of_gt htQ), round4_one]
      · intro htlt hq1
        rw [hrr]
        rw [List.all_eq_true]
        by_contra hnall
        have hne : u ≠ t := by
          intro hcontra
          exact hnall (List.countP_eq_length.mp hcontra)
        have hult : u < t := lt_of_le_of_ne hut hne
        have huc : (u : ℚ) ≤ (t : ℚ) - 1 := by
          have : u + 1 ≤ t := hult
          have := (Nat.cast_le (α := ℚ)).mpr this
          push_cast at this
          linarith
        have hround : round ((u : ℚ) / (t : ℚ) * 10000) = 10000 := by
          have hq2 : ((round ((u : ℚ) / (t : ℚ) * 10000) : ℤ) : ℚ) / 10000 = 1 := by
            rw [← hq1, ← hq]
            rfl
          have hcast : ((round ((u : ℚ) / (t : ℚ) * 10000) : ℤ) : ℚ) = 10000 := by
            field_simp at hq2
            rw [show (u : ℚ) / (t : ℚ) * 10000 = (u : ℚ) * 10000 / (t : ℚ) from by ring]
            exact hq2
          have h10 : ((10000 : ℤ) : ℚ) = (10000 : ℚ) := by norm_num
          exact Int.cast_injective (hcast.trans h10.symm)
        rw [round_eq] at hround
        have hfl : (10000 : ℚ) ≤ (u : ℚ) / (t : ℚ) * 10000 + 1/2 := by
          have := Int.le_floor.mp (le_of_eq hround.symm)
          push_cast at this
          linarith
        have hmul : (10000 : ℚ) * t ≤ ((u : ℚ) / (t : ℚ) * 10000 + 1/2) * t := by
          exact mul_le_mul_of_nonneg_right hfl (le_of_lt htQ)
        have hsimp : ((u : ℚ) / (t : ℚ) * 10000 + 1/2) * t = (u : ℚ) * 10000 + t/2 := by
          field_simp
          ring
        rw [hsimp] at hmul
        have htQlt : (t : ℚ) < 20000 := by
          rw [hrr] at htlt
          exact_mod_cast htlt
        linarith
    · rw [hlen] at hfc
      cases hfc

/-- Witness for C6 amended at a concrete retained matrix with score
0.6. -/
theorem c6_amended_witness :
    (calculateRawAgreement c6wDf).lookup "sentiment" = some (some c6wScore) ∧
      0 ≤ c6wScore ∧ c6wScore ≤ 1 :=
  ⟨rfl, (c6_amended c6wDf "sentiment" c6wScore rfl).1,
    (c6_amended c6wDf "sentiment" c6wScore rfl).2.1⟩

/-! ## C8: origin of pivot cells -/

theorem mem_mergeBy (le : α → α → Bool) (x : α) :
    ∀ (fuel : Nat) (as bs : List α), x ∈ mergeBy le fuel as bs → x ∈ as ∨ x ∈ bs := by
  intro fuel
  induction fuel with
  | zero =>
    intro as bs h
    cases as with
    | nil => right; simpa only [mergeBy] using h
    | cons a as =>
      cases bs with
      | nil => left; simpa only [mergeBy] using h
      | cons b bs =>
        simp only [mergeBy] at h
        exact List.mem_append.mp h
  | succ fuel ih =>
    intro as bs h
    cases as with
    | nil => right; simpa only [mergeBy] using h
    | cons a as =>
      cases bs with
      | nil => left; simpa only [mergeBy] using h
      | cons b bs =>
        simp only [mergeBy] at h
        by_cases hle : le a b = true
        · rw [if_pos hle] at h
          cases h with
          | head => left; exact List.mem_cons_self _ _
          | tail _ h =>
            rcases ih as (b :: bs) h with h2 | h2
            · left; exact List.mem_cons_of_mem a h2
            · right; exact h2
        · rw [if_neg hle] at h
          cases h with
          | head => right; exact List.mem_cons_self _ _
          | tail _ h =>
            rcases ih (a :: as) bs h with h2 | h2
            · left; exact h2
            · right; exact List.mem_cons_of_mem b h2

theorem mem_mergePairsBy (le : α → α → Bool) (x : α) :
    ∀ (ls : List (List α)) (r : List α), r ∈ mergePairsBy le ls → x ∈ r →
      ∃ l ∈ ls, x ∈ l
  | [], r, hr, _ => absurd hr (by simp [mergePairsBy])
  | [l0], r, hr, hx => by
    simp only [mergePairsBy] at hr
    rw [List.mem_singleton.mp hr] at hx
    exact ⟨l0, List.mem_singleton_self l0, hx⟩
  | a :: b :: rest, r, hr, hx => by
    simp only [mergePairsBy] at hr
    cases hr with
    | head =>
      rcases mem_mergeBy le x _ a b hx with h2 | h2
      · exact ⟨a, List.mem_cons_self _ _, h2⟩
      · exact ⟨b, List.mem_cons_of_mem _ (List.mem_cons_self _ _), h2⟩
    | tail _ hr =>
      rcases mem_mergePairsBy le x rest r hr hx with ⟨l, hl, hxl⟩
      exact ⟨l, List.mem_cons_of_mem _ (List.mem_cons_of_mem _ hl), hxl⟩

theorem mem_foldrAppend (x : α) :
    ∀ ls : List (List α), x ∈ ls.foldr (· ++ ·) [] → ∃ l ∈ ls, x ∈ l := by
  intro ls
  induction ls with
  | nil => intro h; cases h
  | cons a ls ih =>
    intro h
    rcases List.mem_append.mp h with h | h
    · exact ⟨a, List.mem_cons_self _ _, h⟩
    · rcases ih h with ⟨l, hl, hxl⟩
      exact ⟨l, List.mem_cons_of_mem _ hl, hxl⟩

theorem mem_mergeAllBy (le : α → α → Bool) (x : α) :
    ∀ (fuel : Nat) (ls : List (List α)), x ∈ mergeAllBy le fuel ls → ∃ l ∈ ls, x ∈ l := by
  intro fuel
  induction fuel with
  | zero =>
    intro ls h
    cases ls with
    | nil => simp only [mergeAllBy] at h; cases h
    | cons a tail =>
      cases tail with
      | nil =>
        simp only [mergeAllBy] at h
        exact ⟨a, List.mem_singleton_self a, h⟩
      | cons b rest =>
        simp only [mergeAllBy] at h
        exact mem_foldrAppend x _ h
  | succ fuel ih =>
    intro ls h
    cases ls with
    | nil => simp only [mergeAllBy] at h; cases h
    | cons a tail =>
      cases tail with
      | nil =>
        simp only [mergeAllBy] at h
        exact ⟨a, List.mem_singleton_self a, h⟩
      | cons b rest =>
        simp only [mergeAllBy] at h
        rcases ih (mergePairsBy le (a :: b :: rest)) h with ⟨r, hr, hxr⟩
        exact mem_mergePairsBy le x _ r hr hxr

theorem mem_sortListBy (le : α → α → Bool) (x : α) (l : List α)
    (h : x ∈ sortListBy le l) : x ∈ l := by
  unfold sortListBy at h
  rcases mem_mergeAllBy le x _ _ h with ⟨r, hr, hxr⟩
  rcases List.mem_map.mp hr with ⟨y, hy, hyr⟩
  rw [← hyr] at hxr
  rw [List.mem_singleton.mp hxr]
  exact hy

theorem takeRun_fst_subset (p : Nat) :
    ∀ l : List Rec, ∀ x ∈ (takeRun p l).1, x ∈ l := by
  intro l
  induction l with
  | nil => intro x hx; cases hx
  | cons r rs ih =>
    intro x hx
    by_cases hr : (r.postId == p) = true
    · simp only [takeRun, hr, if_true] at hx
      cases hx with
      | head => exact List.mem_cons_self r rs
      | tail _ hx => exact List.mem_cons_of_mem r (ih x hx)
    · simp only [takeRun, hr, if_false] at hx
      cases hx

theorem takeRun_snd_subset (p : Nat) :
    ∀ l : List Rec, ∀ x ∈ (takeRun p l).2, x ∈ l := by
  intro l
  induction l with
  | nil => intro x hx; cases hx
  | cons r rs ih =>
    intro x hx
    by_cases hr : (r.postId == p) = true
    · simp only [takeRun, hr, if_true] at hx
      exact List.mem_cons_of_mem r (ih x hx)
    · simp only [takeRun, hr, if_false] at hx
      exact hx

theorem buildRows_mem (anns : List Nat) :
    ∀ (fuel : Nat) (recs : List Rec) (pr : Nat × List (Option Int)),
      pr ∈ buildRows anns fuel recs →
      pr.2.length = anns.length ∧
        ∀ cell ∈ pr.2, cell = none ∨ ∃ r ∈ recs, cell = some r.rating := by
  intro fuel
  induction fuel with
  | zero =>
    intro recs pr h
    cases recs with
    | nil => simp only [buildRows] at h; cases h
    | cons r rs => simp only [buildRows] at h; cases h
  | succ fuel ih =>
    intro recs pr h
    cases recs with
    | nil => simp only [buildRows] at h; cases h
    | cons r rs =>
      simp only [buildRows] at h
      cases h with
      | head =>
        refine ⟨List.length_map _ _, ?_⟩
        intro cell hcell
        rcases List.mem_map.mp hcell with ⟨a, _, hca⟩
        rcases hfind : (takeRun r.postId (r :: rs)).1.find? (fun x => x.annotator == a)
          with _ | rfound
        · left
          rw [← hca, hfind]
          rfl
        · right
          refine ⟨rfound, takeRun_fst_subset _ _ _ (List.mem_of_find?_eq_some hfind), ?_⟩
          rw [← hca, hfind]
          rfl
      | tail _ h =>
        have hsub := takeRun_snd_subset r.postId (r :: rs)
        rcases ih _ pr h with ⟨hlen, hcells⟩
        refine ⟨hlen, ?_⟩
        intro cell hcell
        rcases hcells cell hcell with hc | ⟨rr, hrr, hcr⟩
        · left; exact hc
        · right; exact ⟨rr, hsub rr hrr, hcr⟩

theorem pivot_cells (df : List Rec) (c : String) (anns : List Nat)
    (rows : List (Nat × List (Option Int)))
    (hpiv : pivotRatings (df.filter (·.category == c)) = some (anns, rows)) :
    ∀ pr ∈ rows, pr.2.length = anns.length ∧
      ∀ cell ∈ pr.2, cell = none ∨ ∃ r ∈ df, cell = some r.rating := by
  unfold pivotRatings at hpiv
  by_cases hdup : hasAdjDupKey (sortListBy recKeyLe (df.filter (·.category == c))) = true
  · rw [if_pos hdup] at hpiv
    cases hpiv
  · rw [if_neg hdup] at hpiv
    have hanns := (Prod.mk.injEq _ _ _ _ ▸ Option.some.inj hpiv).1
    have hrows := (Prod.mk.injEq _ _ _ _ ▸ Option.some.inj hpiv).2
    intro pr hpr
    rw [← hrows] at hpr
    rcases buildRows_mem _ _ _ pr hpr with ⟨hlen, hcells⟩
    refine ⟨by rw [hlen, hanns], ?_⟩
    intro cell hcell
    rcases hcells cell hcell with hc | ⟨r, hr, hcr⟩
    · left; exact hc
    · right
      exact ⟨r, List.mem_of_mem_filter (mem_sortListBy _ _ _ hr), hcr⟩

theorem countP_four (L : List α) (p1 p2 p3 p4 : α → Bool)
    (h : ∀ x ∈ L, (p1 x).toNat + (p2 x).toNat + (p3 x).toNat + (p4 x).toNat = 1) :
    L.countP p1 + L.countP p2 + L.countP p3 + L.countP p4 = L.length := by
  induction L with
  | nil => rfl
  | cons a L ih =>
    have ha := h a (List.mem_cons_self a L)
    have ih2 := ih fun x hx => h x (List.mem_cons_of_mem a hx)
    simp only [List.countP_cons, List.length_cons]
    rcases h1 : p1 a with _ | _ <;> rcases h2 : p2 a with _ | _ <;>
      rcases h3 : p3 a with _ | _ <;> rcases h4 : p4 a with _ | _ <;>
      rw [h1, h2, h3, h4] at ha <;> simp at ha ⊢ <;> omega

/-- C8: confusion matrices are produced only when the reviewer count is
exactly 2 (otherwise the result map is empty), and for every category with
a produced matrix the four cells sum to the stored item total, which is
the number of retained rows of that category — under the data-model
invariants that ratings are ternary (1, 0 or the -1 sentinel) and that
every retained row has a rating in every cell. -/
theorem c8_confusion (df : List Rec) :
    ((sortedUnique (df.map (·.annotator))).length ≠ 2 →
      calculateConfusionMatrices df = []) ∧
    (∀ c cm, (calculateConfusionMatrices df).lookup c = some (some cm) →
      (∀ r ∈ df, r.rating = 1 ∨ r.rating = 0 ∨ r.rating = -1) →
      (∀ row ∈ retainedRows df c, ∀ x ∈ row, x.isSome = true) →
      cm.posPos + cm.posNeg + cm.negPos + cm.negNeg = cm.totalItems ∧
        cm.totalItems = (retainedRows df c).length) := by
  constructor
  · intro hn
    have hb : ((sortedUnique (df.map (·.annotator))).length != 2) = true :=
      bne_iff_ne.mpr hn
    simp only [calculateConfusionMatrices, hb, if_true]
  · intro c cm hlook hry hcomp
    by_cases hn : (sortedUnique (df.map (·.annotator))).length = 2
    swap
    · have hb : ((sortedUnique (df.map (·.annotator))).length != 2) = true :=
        bne_iff_ne.mpr hn
      simp only [calculateConfusionMatrices, hb, if_true] at hlook
      simp [List.lookup] at hlook
    · have hb : ((sortedUnique (df.map (·.annotator))).length != 2) = false := by
        rw [hn]
        rfl
      simp only [calculateConfusionMatrices, hb, Bool.false_eq_true, if_false] at hlook
      have hfc := lookup_map_eq _ _ _ _ hlook
      rcases hpiv : pivotRatings (df.filter (·.category == c)) with _ | ⟨anns, rows⟩
      · rw [hpiv] at hfc
        cases hfc
      · rw [hpiv] at hfc
        have hrr : retainedRows df c = retainedCells (rows.map (·.2)) := by
          unfold retainedRows
          rw [hpiv]
        cases anns with
        | nil => exact Option.noConfusion (hfc : some cm = none)
        | cons a1 tail =>
          cases tail with
          | nil => exact Option.noConfusion (hfc : some cm = none)
          | cons a2 tail2 =>
            cases tail2 with
            | cons a3 tail3 =>
              exact Option.noConfusion (hfc : some cm = none)
            | nil =>
              have hfc2 : some cm = confusionFromRows (rows.map (·.2)) := hfc
              simp only [confusionFromRows] at hfc2
              set clean := cohenClean (rows.map (·.2)) with hcleandef
              have hrowsfact := pivot_cells df c [a1, a2] rows hpiv
              have hlen2 : ∀ row ∈ rows.map (·.2), row.length = 2 := by
                intro row hrow
                rcases List.mem_map.mp hrow with ⟨pr, hpr, hpr2⟩
                rw [← hpr2]
                exact (hrowsfact pr hpr).1
              have hmaskeq : ∀ row ∈ rows.map (·.2),
                  ((row.getD 0 none != some (-1)) && (row.getD 1 none != some (-1)))
                    = row.all (· != some (-1)) := by
                intro row hrow
                rcases List.length_eq_two.mp (hlen2 row hrow) with ⟨x, y, hxy⟩
                subst hxy
                simp [List.all_cons]
              rcases hclen : (clean.length == 0) with _ | _
              · rw [hclen] at hfc2
                simp only [Bool.false_eq_true, if_false] at hfc2
                have hcm := Option.some.inj hfc2
                have hcells : ∀ row ∈ clean,
                    ∃ vx vy, row = [some vx, some vy] ∧
                      (vx = 1 ∨ vx = 0) ∧ (vy = 1 ∨ vy = 0) := by
                  intro row hrow
                  rw [hcleandef] at hrow
                  unfold cohenClean at hrow
                  have hrow' : row ∈ rows.map (·.2) := List.mem_of_mem_filter hrow
                  have hmask := List.of_mem_filter hrow
                  rcases List.length_eq_two.mp (hlen2 row hrow') with ⟨x, y, hxy⟩
                  subst hxy
                  simp only [List.getD_cons_zero, List.getD_cons_succ,
                    Bool.and_eq_true, bne_iff_ne, ne_eq] at hmask
                  have hret : [x, y] ∈ retainedRows df c := by
                    rw [hrr]
                    refine List.mem_filter.mpr ⟨hrow', ?_⟩
                    rw [← hmaskeq _ hrow']
                    simp only [List.getD_cons_zero, List.getD_cons_succ,
                      Bool.and_eq_true, bne_iff_ne, ne_eq]
                    exact hmask
                  have hxs := hcomp _ hret x (List.mem_cons_self _ _)
                  have hys := hcomp _ hret y
                    (List.mem_cons_of_mem _ (List.mem_cons_self _ _))
                  rcases List.mem_map.mp hrow' with ⟨pr, hpr, hpr2⟩
                  have hcellorig := (hrowsfact pr hpr).2
                  rw [hpr2] at hcellorig
                  have hox := hcellorig x (List.mem_cons_self _ _)
                  have hoy := hcellorig y
                    (List.mem_cons_of_mem _ (List.mem_cons_self _ _))
                  rcases hox with hox | ⟨rx, hrx, hox⟩
                  · rw [hox] at hxs
                    cases hxs
                  · rcases hoy with hoy | ⟨ry, hry2, hoy⟩
                    · rw [hoy] at hys
                      cases hys
                    · refine ⟨rx.rating, ry.rating, by rw [hox, hoy], ?_, ?_⟩
                      · rcases hry rx hrx with hv | hv | hv
                        · left; exact hv
                        · right; exact hv
                        · exfalso
                          apply hmask.1
                          rw [hox, hv]
                      · rcases hry ry hry2 with hv | hv | hv
                        · left; exact hv
                        · right; exact hv
                        · exfalso
                          apply hmask.2
                          rw [hoy, hv]
                constructor
                · rw [hcm]
                  apply countP_four
                  intro row hrow
                  rcases hcells row hrow with ⟨vx, vy, hxy, hvx, hvy⟩
                  subst hxy
                  rcases hvx with hvx | hvx <;> rcases hvy with hvy | hvy <;>
                    subst hvx <;> subst hvy <;> decide
                · rw [hcm]
                  show clean.length = (retainedRows df c).length
                  rw [hrr]
                  unfold retainedCells
                  rw [hcleandef]
                  unfold cohenClean
                  rw [List.filter_congr hmaskeq]
              · rw [hclen] at hfc2
                simp at hfc2

/-- Witness for C8 at a concrete two-reviewer run in the sentiment
category. -/
theorem c8_confusion_witness :
    (calculateConfusionMatrices c8Df).lookup "sentiment" = some (some c8Cm) ∧
      c8Cm.posPos + c8Cm.posNeg + c8Cm.negPos + c8Cm.negNeg = c8Cm.totalItems ∧
      c8Cm.totalItems = (retainedRows c8Df "sentiment").length :=
  ⟨rfl,
    ((c8_confusion c8Df).2 "sentiment" c8Cm rfl (by decide) (by decide)).1,
    ((c8_confusion c8Df).2 "sentiment" c8Cm rfl (by decide) (by decide)).2⟩

/-! ## C9: stable sorting of the flagged posts -/

theorem mem_insertBy (le : α → α → Bool) (x y : α) :
    ∀ l : List α, x ∈ insertBy le y l ↔ x = y ∨ x ∈ l := by
  intro l
  induction l with
  | nil => simp [insertBy]
  | cons z zs ih =>
    by_cases hle : le y z = true
    · simp [insertBy, hle]
    · simp only [insertBy, hle, Bool.false_eq_true, if_false, List.mem_cons, ih]
      tauto

theorem mem_insertionSortBy (le : α → α → Bool) (x : α) :
    ∀ l : List α, x ∈ insertionSortBy le l ↔ x ∈ l := by
  intro l
  induction l with
  | nil => simp [insertionSortBy]
  | cons a l ih =>
    simp only [insertionSortBy, mem_insertBy, ih, List.mem_cons]

theorem pairwise_insertBy (le : α → α → Bool)
    (htrans : ∀ a b c, le a b = true → le b c = true → le a c = true)
    (htot : ∀ a b, le a b = false → le b a = true) (y : α) :
    ∀ l : List α, List.Pairwise (fun a b => le a b = true) l →
      List.Pairwise (fun a b => le a b = true) (insertBy le y l) := by
  intro l
  induction l with
  | nil =>
    intro _
    simp [insertBy]
  | cons z zs ih =>
    intro h
    rcases List.pairwise_cons.mp h with ⟨hz, hzs⟩
    by_cases hle : le y z = true
    · simp only [insertBy, hle, if_true]
      refine List.pairwise_cons.mpr ⟨?_, h⟩
      intro b hb
      rcases List.mem_cons.mp hb with hb | hb
      · rw [hb]; exact hle
      · exact htrans y z b hle (hz b hb)
    · simp only [insertBy, hle, Bool.false_eq_true, if_false]
      refine List.pairwise_cons.mpr ⟨?_, ih hzs⟩
      intro b hb
      rcases (mem_insertBy le b y zs).mp hb with hb | hb
      · rw [hb]
        exact htot y z (by revert hle; cases le y z <;> simp)
      · exact hz b hb

theorem pairwise_insertionSortBy (le : α → α → Bool)
    (htrans : ∀ a b c, le a b = true → le b c = true → le a c = true)
    (htot : ∀ a b, le a b = false → le b a = true) :
    ∀ l : List α, List.Pairwise (fun a b => le a b = true) (insertionSortBy le l) := by
  intro l
  induction l with
  | nil => simp [insertionSortBy]
  | cons a l ih =>
    exact pairwise_insertBy le htrans htot a _ ih

theorem filter_insertBy_pos (le : α → α → Bool) (p : α → Bool) (y : α)
    (hy : p y = true) (hcompat : ∀ z, le y z = false → p z = false) :
    ∀ l : List α, (insertBy le y l).filter p = y :: l.filter p := by
  intro l
  induction l with
  | nil => simp [insertBy, hy]
  | cons z zs ih =>
    by_cases hle : le y z = true
    · simp [insertBy, hle, hy]
    · have hz : p z = false := hcompat z (by revert hle; cases le y z <;> simp)
      simp only [insertBy, hle, Bool.false_eq_true, if_false, List.filter_cons, hz, ih]

theorem filter_insertBy_neg (le : α → α → Bool) (p : α → Bool) (y : α)
    (hy : p y = false) :
    ∀ l : List α, (insertBy le y l).filter p = l.filter p := by
  intro l
  induction l with
  | nil => simp [insertBy, hy]
  | cons z zs ih =>
    by_cases hle : le y z = true
    · simp [insertBy, hle, hy]
    · simp only [insertBy, hle, Bool.false_eq_true, if_false, List.filter_cons, ih]

theorem filter_rate_insertionSortBy (q : ℚ) :
    ∀ l : List ProblemPost,
      (insertionSortBy ppLe l).filter (fun e => e.errorRate == q)
        = l.filter (fun e => e.errorRate == q) := by
  intro l
  induction l with
  | nil => simp [insertionSortBy]
  | cons a l ih =>
    show (insertBy ppLe a (insertionSortBy ppLe l)).filter _ = _
    by_cases hpa : (a.errorRate == q) = true
    · rw [filter_insertBy_pos ppLe _ a hpa ?_ _, ih]
      · rw [List.filter_cons, hpa]
        simp
      · intro z hz
        have haq : a.errorRate = q := beq_iff_eq.mp hpa
        have hlt : a.errorRate < z.errorRate := by
          have := of_decide_eq_false hz
          exact lt_of_not_le this
        refine beq_eq_false_iff_ne.mpr ?_
        intro hzq
        rw [hzq, ← haq] at hlt
        exact lt_irrefl _ hlt
    · have hpa2 : (a.errorRate == q) = false := by
        revert hpa; cases a.errorRate == q <;> simp
      rw [filter_insertBy_neg ppLe _ a hpa2 _, ih, List.filter_cons, hpa2]
      simp

theorem mem_flaggedPosts (df : List EvalRec) (e : ProblemPost) :
    e ∈ flaggedPosts df ↔
      e.postId ∈ uniqueFirst (df.map (·.postId)) ∧
      0 < decisiveCount df e.postId ∧
      1/2 < (errCount df e.postId : ℚ) / (decisiveCount df e.postId : ℚ) ∧
      e = ⟨e.postId, errCount df e.postId, decisiveCount df e.postId,
            round4 ((errCount df e.postId : ℚ) / (decisiveCount df e.postId : ℚ))⟩ := by
  unfold flaggedPosts
  rw [List.mem_filterMap]
  constructor
  · rintro ⟨p, hp, hf⟩
    simp only at hf
    by_cases h1 : 0 < decisiveCount df p
    · rw [if_pos h1] at hf
      by_cases h2 : (1 : ℚ)/2 < (errCount df p : ℚ) / (decisiveCount df p : ℚ)
      · rw [if_pos h2] at hf
        have he := (Option.some.inj hf).symm
        have hpe : e.postId = p := by rw [he]
        rw [← hpe] at h1 h2 hp he
        exact ⟨hp, h1, h2, he⟩
      · rw [if_neg h2] at hf
        cases hf
    · rw [if_neg h1] at hf
      cases hf
  · rintro ⟨hp, h1, h2, he⟩
    refine ⟨e.postId, hp, ?_⟩
    simp only
    rw [if_pos h1, if_pos h2, ← he]

/-- C9: a post appears in the problem-post list exactly when it has at
least one decisive (correct/incorrect) category verdict and its incorrect
fraction strictly exceeds one half; every listed entry carries the error
count, the decisive count and the (rounded) error ratio; and the list is
sorted by error ratio descending with ties keeping encounter order (the
entries of any fixed ratio appear exactly as in the unsorted flag pass). -/
theorem c9_problem_posts (res : EvalResults) :
    (∀ p ∈ uniqueFirst (res.rawData.map (·.postId)),
      ((∃ e ∈ identifyProblemPosts res, e.postId = p) ↔
        (0 < decisiveCount res.rawData p ∧
          1/2 < (errCount res.rawData p : ℚ) / (decisiveCount res.rawData p : ℚ)))) ∧
    (∀ e ∈ identifyProblemPosts res,
      e.errors = errCount res.rawData e.postId ∧
      e.total = decisiveCount res.rawData e.postId ∧
      e.errorRate = round4 ((e.errors : ℚ) / (e.total : ℚ))) ∧
    List.Pairwise (fun a b => b.errorRate ≤ a.errorRate) (identifyProblemPosts res) ∧
    (∀ q : ℚ, (identifyProblemPosts res).filter (fun e => e.errorRate == q)
        = (flaggedPosts res.rawData).filter (fun e => e.errorRate == q)) := by
  refine ⟨?_, ?_, ?_, ?_⟩
  · intro p hp
    constructor
    · rintro ⟨e, he, hep⟩
      have hefl : e ∈ flaggedPosts res.rawData :=
        (mem_insertionSortBy ppLe e _).mp he
      rcases (mem_flaggedPosts _ e).mp hefl with ⟨_, h1, h2, _⟩
      rw [hep] at h1 h2
      exact ⟨h1, h2⟩
    · rintro ⟨h1, h2⟩
      refine ⟨⟨p, errCount res.rawData p, decisiveCount res.rawData p,
        round4 ((errCount res.rawData p : ℚ) / (decisiveCount res.rawData p : ℚ))⟩,
        ?_, rfl⟩
      apply (mem_insertionSortBy ppLe _ _).mpr
      exact (mem_flaggedPosts _ _).mpr ⟨hp, h1, h2, rfl⟩
  · intro e he
    have hefl : e ∈ flaggedPosts res.rawData :=
      (mem_insertionSortBy ppLe e _).mp he
    rcases (mem_flaggedPosts _ e).mp hefl with ⟨_, _, _, he2⟩
    refine ⟨by rw [he2], by rw [he2], ?_⟩
    conv_lhs => rw [he2]
    conv in e.errors => rw [he2]
    conv in e.total => rw [he2]
  · have hp := pairwise_insertionSortBy ppLe
      (fun a b c hab hbc => by
        unfold ppLe at hab hbc ⊢
        exact decide_eq_true (le_trans (of_decide_eq_true hbc) (of_decide_eq_true hab)))
      (fun a b hab => by
        unfold ppLe at hab ⊢
        exact decide_eq_true (le_of_lt (lt_of_not_le (of_decide_eq_false hab))))
      (flaggedPosts res.rawData)
    refine List.Pairwise.imp ?_ hp
    intro a b hab
    exact of_decide_eq_true hab
  · intro q
    exact filter_rate_insertionSortBy q (flaggedPosts res.rawData)

/-- Witness for C9: in the concrete run, post 1 (2 incorrect of 3
decisive verdicts) appears in the problem-post list. -/
theorem c9_problem_posts_witness :
    ∃ e ∈ identifyProblemPosts c9Res, e.postId = 1 := by
  have hmem : (1 : Nat) ∈ uniqueFirst (c9Res.rawData.map (·.postId)) := by decide
  have h1 : 0 < decisiveCount c9Res.rawData 1 := by decide
  have h2 : (1 : ℚ)/2 < (errCount c9Res.rawData 1 : ℚ) /
      (decisiveCount c9Res.rawData 1 : ℚ) := by
    have he : errCount c9Res.rawData 1 = 2 := by decide
    have hd : decisiveCount c9Res.rawData 1 = 3 := by decide
    rw [he, hd]
    norm_num
  exact ((c9_problem_posts c9Res).1 1 hmem).mpr ⟨h1, h2⟩

end NLD
